import Mathlib

/-!
Verification of the SES (Schiper–Eggli–Sandoz) causal-ordering process,
a shallow embedding of `src/single_process.py`.

Conventions of the embedding:
* A Python vector clock (a list of non-negative ints) is `Vec := List Nat`.
* A `MsgQueue` entry is `0` (the empty sentinel) or a vector; we embed it
  as `Option Vec`, `none` standing for the sentinel `0`.
* Python in-place index loops `for i in range(n): queue[i] = ...` become
  index-aware maps (`mapWithIdxFrom`).  The classes establish and maintain
  `len(vector) = len(queue) = num_processes`, so iterating over the list is
  the same as iterating over `range(num_processes)`.
* Out-of-range indexing (`IndexError` in Python, unreachable under the
  length invariant) is embedded with `List.getD _ _ default` / `List.set`
  (which is the identity out of range); theorems that depend on the index
  being in range carry the corresponding bound as a hypothesis.
* Wall-clock fields (`arrival_time`), logging, sockets and locks are not
  part of the causality state and are omitted.
-/

namespace SES

abbrev Vec := List Nat

/-- Index-aware map: applies `f i a` to the element of index `i`
(counting from `start`).  Used to embed Python loops
`for i in range(n): xs[i] = f(i, xs[i])`. -/
def mapWithIdxFrom (f : Nat → α → α) : Nat → List α → List α
  | _, [] => []
  | start, a :: rest => f start a :: mapWithIdxFrom f (start + 1) rest

/-- `MsgQueue.vector_merge`:
`if v1 == 0: return v2; elif v2 == 0: return v1;
return [max(a, b) for a, b in zip(v1, v2)]`. -/
def vector_merge (v1 v2 : Option Vec) : Option Vec :=
  match v1 with
  | none => v2
  | some a =>
    match v2 with
    | none => v1
    | some b => some (List.zipWith max a b)

/-- `MsgQueue.update_queue_recv(pid, other_queue)`:
`for i in range(q_length): if i != pid: queue[i] = vector_merge(queue[i], other_queue[i])`.
The queue is the last argument; the result is the updated queue. -/
def update_queue_recv (pid : Nat) (other_queue q : List (Option Vec)) :
    List (Option Vec) :=
  mapWithIdxFrom
    (fun i e => if i = pid then e else vector_merge e (other_queue.getD i none))
    0 q

/-- `MsgQueue.update_queue_send(target_pid, vector_clock)`:
`queue[target_pid] = vector_merge(queue[target_pid], vector_clock)`. -/
def update_queue_send (target_pid : Nat) (vector_clock : Vec)
    (q : List (Option Vec)) : List (Option Vec) :=
  q.set target_pid (vector_merge (q.getD target_pid none) (some vector_clock))

/-- The `Message` wire entity (the wall-clock `arrival_time` is omitted). -/
structure Message where
  sender_id : Nat
  receiver_id : Nat
  content : String
  timestamp : Vec
  msg_queue : List (Option Vec)
  msg_number : Nat
deriving DecidableEq, Repr

/-- `VectorClock`: the vector, identity, and the owned `MsgQueue` (we inline
the queue's list; its `q_length` is `num_processes = queue.length`). -/
structure VectorClock where
  vector : Vec
  process_id : Nat
  num_processes : Nat
  msg_queue : List (Option Vec)
deriving DecidableEq, Repr

/-- `VectorClock.increment`: `vector[process_id] += 1`. -/
def VectorClock.increment (c : VectorClock) : VectorClock :=
  { c with vector :=
      c.vector.set c.process_id (c.vector.getD c.process_id 0 + 1) }

/-- `VectorClock.update(msg)` (applied on delivery):
`for i in range(num_processes): if i != process_id: vector[i] = max(vector[i], msg.timestamp[i])`;
then `vector[process_id] += 1`; then
`msg_queue.update_queue_recv(process_id, msg.msg_queue)`. -/
def VectorClock.update (c : VectorClock) (msg : Message) : VectorClock :=
  let v := mapWithIdxFrom
    (fun i x => if i = c.process_id then x else max x (msg.timestamp.getD i 0))
    0 c.vector
  { c with
    vector := v.set c.process_id (v.getD c.process_id 0 + 1)
    msg_queue := update_queue_recv c.process_id msg.msg_queue c.msg_queue }

/-- The causality-relevant state of `Process` (`process_id`, `num_processes`,
the `VectorClock` with its `MsgQueue`, the buffer, the delivery log, and the
per-target `sent_count`; sockets, locks, stats and the logger are I/O). -/
structure ProcState where
  process_id : Nat
  num_processes : Nat
  vector_clock : VectorClock
  message_buffer : List Message
  delivered_messages : List Message
  sent_count : List Nat
deriving DecidableEq, Repr

/-- `Process.__init__`: zero vector clock, all-empty dependency map,
empty buffer and delivery log, zero send counters. -/
def ProcState.init (pid n : Nat) : ProcState :=
  { process_id := pid
    num_processes := n
    vector_clock :=
      { vector := List.replicate n 0
        process_id := pid
        num_processes := n
        msg_queue := List.replicate n none }
    message_buffer := []
    delivered_messages := []
    sent_count := List.replicate n 0 }

/-- `Process.compare_bigger_equal(v1, v2)`:
`for a, b in zip(v1, v2): if a < b: return False; return True`. -/
def compare_bigger_equal (v1 v2 : Vec) : Bool :=
  (List.zip v1 v2).all fun ab => decide (ab.2 ≤ ab.1)

/-- `Process.can_deliver(msg)`: deliverable iff the message's `msg_queue`
entry for the receiver is the sentinel `0`, or it is componentwise
dominated by the receiver's current vector clock. -/
def can_deliver (st : ProcState) (msg : Message) : Bool :=
  match msg.msg_queue.getD st.process_id none with
  | none => true
  | some d => compare_bigger_equal st.vector_clock.vector d

/-- `Process.deliver_message(msg)`: `vector_clock.update(msg)` and append to
`delivered_messages`. -/
def deliver_message (st : ProcState) (msg : Message) : ProcState :=
  { st with
    vector_clock := st.vector_clock.update msg
    delivered_messages := st.delivered_messages ++ [msg] }

/-- `Process.buffer_message(msg)`: append to `message_buffer`. -/
def buffer_message (st : ProcState) (msg : Message) : ProcState :=
  { st with message_buffer := st.message_buffer ++ [msg] }

/-- Sort key used by `try_deliver_buffered`:
`lambda m: (m.sender_id, m.timestamp[m.sender_id])`. -/
def sortKey (m : Message) : Nat × Nat :=
  (m.sender_id, m.timestamp.getD m.sender_id 0)

/-- Lexicographic `≤` on the sort key. -/
def keyLE (p q : Nat × Nat) : Bool :=
  decide (p.1 < q.1) || (decide (p.1 = q.1) && decide (p.2 ≤ q.2))

/-- Stable insertion of a message into a key-sorted list (the element being
inserted comes from earlier in the original list, so it goes before an
equal-key element). -/
def insertByKey (m : Message) : List Message → List Message
  | [] => [m]
  | x :: xs =>
    if keyLE (sortKey m) (sortKey x) then m :: x :: xs
    else x :: insertByKey m xs

/-- Stable sort by `sortKey` ascending; Python's `list.sort(key=...)` is a
stable sort by the same key, and a stable sort is unique, so this is the
same reordering. -/
def sortByKey : List Message → List Message
  | [] => []
  | x :: xs => insertByKey x (sortByKey xs)

/-- One pass of `try_deliver_buffered` over the (sorted) buffer copy:
deliver each deliverable message as it is reached, keep the rest.  Returns
the state after the pass and the messages kept. -/
def deliver_scan : List Message → ProcState → ProcState × List Message
  | [], st => (st, [])
  | m :: rest, st =>
    if can_deliver st m then deliver_scan rest (deliver_message st m)
    else ((deliver_scan rest st).1, m :: (deliver_scan rest st).2)

/-- `Process.try_deliver_buffered`: if the buffer is empty return; otherwise
sort it by `(sender_id, timestamp[sender_id])` and make a single pass,
delivering each message for which `can_deliver` holds at the moment it is
scanned and removing it from the buffer.  (The source has no repeat loop.) -/
def try_deliver_buffered (st : ProcState) : ProcState :=
  if st.message_buffer = [] then st
  else
    { (deliver_scan (sortByKey st.message_buffer) st).1 with
      message_buffer := (deliver_scan (sortByKey st.message_buffer) st).2 }

/-- The first step of `Process.receive_message(msg)`:
`vector_clock.msg_queue.update_queue_recv(process_id, msg.msg_queue)`,
performed before the delivery check. -/
def recv_update_queue (st : ProcState) (msg : Message) : ProcState :=
  { st with
    vector_clock :=
      { st.vector_clock with
        msg_queue :=
          update_queue_recv st.process_id msg.msg_queue
            st.vector_clock.msg_queue } }

/-- `Process.receive_message(msg)`: first `recv_update_queue` (before the
delivery check), then deliver-and-drain or buffer. -/
def receive_message (st : ProcState) (msg : Message) : ProcState :=
  if can_deliver (recv_update_queue st msg) msg then
    try_deliver_buffered (deliver_message (recv_update_queue st msg) msg)
  else
    buffer_message (recv_update_queue st msg) msg

/-- `Process.send_message(target_id, content)`: increment the clock, take
the timestamp copy, bump `sent_count[target_id]`, build the message with
the *pre-update* `msg_queue` copy, then
`msg_queue.update_queue_send(target_id, timestamp)`.  Returns the updated
state and the outgoing message. -/
def send_message (st : ProcState) (target_id : Nat) (content : String) :
    ProcState × Message :=
  let c1 := st.vector_clock.increment
  let timestamp := c1.vector
  let newCount := st.sent_count.getD target_id 0 + 1
  let msg : Message :=
    { sender_id := st.process_id
      receiver_id := target_id
      content := content
      timestamp := timestamp
      msg_queue := c1.msg_queue
      msg_number := newCount }
  let c2 := { c1 with msg_queue := update_queue_send target_id timestamp c1.msg_queue }
  ({ st with
      vector_clock := c2
      sent_count := st.sent_count.set target_id newCount }, msg)

/-! ### Operation traces over a single process -/

/-- A local operation of a process: a send (`send_message`) or the receipt
of a message from the network (`receive_message`, which delivers-and-drains
or buffers). -/
inductive Op where
  | send : Nat → String → Op
  | recv : Message → Op
deriving DecidableEq, Repr

/-- Apply one operation to the process state. -/
def applyOp (st : ProcState) : Op → ProcState
  | Op.send t c => (send_message st t c).1
  | Op.recv m => receive_message st m

/-- Run a sequence of operations. -/
def runOps : ProcState → List Op → ProcState
  | st, [] => st
  | st, op :: rest => runOps (applyOp st op) rest

/-- Number of send operations in a trace. -/
def countSends : List Op → Nat
  | [] => 0
  | Op.send _ _ :: rest => countSends rest + 1
  | Op.recv _ :: rest => countSends rest

/-! ### The inbound connection handler -/

/-- A raw inbound frame as read by `handle_connection`: no bytes at all,
a frame that `json.loads`/`Message.from_dict` decodes to a `Message`, or a
malformed frame (one that fails to decode). -/
inductive Frame where
  | empty : Frame
  | wellFormed : Message → Frame
  | malformed : String → Frame
deriving DecidableEq, Repr

/-- `Process.handle_connection`: read the data; `if data:` decode it and
call `receive_message`.  The `try/except` wrapper around the body is
commented out in the source, so a decode failure propagates out of the
handler uncaught; we embed the fallible body as `Except`, a decode failure
being `Except.error`. -/
def handle_connection (st : ProcState) (f : Frame) : Except String ProcState :=
  match f with
  | Frame.empty => Except.ok st
  | Frame.wellFormed m => Except.ok (receive_message st m)
  | Frame.malformed s => Except.error ("JSONDecodeError: " ++ s)

/-! ### Dependency-map operation traces (the `MsgQueue` alone) -/

/-- One call on a `MsgQueue`: `update_queue_send(target, vc)` or
`update_queue_recv(pid, other_queue)`. -/
inductive QOp where
  | send : Nat → Vec → QOp
  | recv : Nat → List (Option Vec) → QOp
deriving DecidableEq, Repr

/-- Apply one `MsgQueue` call. -/
def applyQOp (q : List (Option Vec)) : QOp → List (Option Vec)
  | QOp.send t vc => update_queue_send t vc q
  | QOp.recv pid other => update_queue_recv pid other q

/-- Run a sequence of `MsgQueue` calls. -/
def runQOps : List (Option Vec) → List QOp → List (Option Vec)
  | q, [] => q
  | q, op :: rest => runQOps (applyQOp q op) rest

/-- Well-formed queue entry for a system of `n` processes: the empty
sentinel, or a vector of length `n`. -/
def entry_wf (n : Nat) (e : Option Vec) : Bool :=
  match e with
  | none => true
  | some v => v.length == n

/-- All entries of a queue are well-formed. -/
def queue_wf (n : Nat) (q : List (Option Vec)) : Bool :=
  q.all fun e => entry_wf n e

/-- Well-formed `MsgQueue` call: the merged-in vector, or every entry of
the other queue, has length `n`. -/
def qop_wf (n : Nat) : QOp → Bool
  | QOp.send _ vc => vc.length == n
  | QOp.recv _ other => queue_wf n other

/-! ### The spec's dependency-map invariant -/

/-- A dependency entry is empty or componentwise dominated by the clock. -/
def entry_le_vc (e : Option Vec) (w : Vec) : Bool :=
  match e with
  | none => true
  | some v => compare_bigger_equal w v

/-- The spec's state invariant at a process: for every peer `k ≠ p`,
`D[k]` is empty or `D[k] ≤ VC` componentwise. -/
def dep_invariant (st : ProcState) : Bool :=
  (List.range st.num_processes).all fun k =>
    if k = st.process_id then true
    else entry_le_vc (st.vector_clock.msg_queue.getD k none) st.vector_clock.vector

/-! ### Concrete inputs used by the counterexamples and witnesses -/

/-- A message from process 1 carrying no dependency entries. -/
def m31 : Message :=
  { sender_id := 1
    receiver_id := 0
    content := "x"
    timestamp := [0, 1, 0]
    msg_queue := [none, none, none]
    msg_number := 1 }

/-- A message from process 1 whose dependency map constrains both the
receiver (entry 0, unsatisfied) and peer 2. -/
def mBad : Message :=
  { sender_id := 1
    receiver_id := 0
    content := "x"
    timestamp := [0, 6, 0]
    msg_queue := [some [0, 5, 0], none, some [0, 5, 0]]
    msg_number := 1 }

/-- Process 0's state with a non-empty dependency entry toward process 1. -/
def st5 : ProcState :=
  { ProcState.init 0 3 with
    vector_clock :=
      { (ProcState.init 0 3).vector_clock with
        vector := [2, 0, 0]
        msg_queue := [none, some [1, 0, 0], none] } }

/-- Buffered at process 2: not deliverable until `VC[1] ≥ 1`. -/
def mA : Message :=
  { sender_id := 0
    receiver_id := 2
    content := "a"
    timestamp := [1, 0, 0]
    msg_queue := [none, none, some [0, 1, 0]]
    msg_number := 1 }

/-- Buffered at process 2: deliverable at once, and its delivery raises
`VC[1]` to 1. -/
def mB : Message :=
  { sender_id := 1
    receiver_id := 2
    content := "b"
    timestamp := [0, 1, 0]
    msg_queue := [none, none, none]
    msg_number := 1 }

/-- Process 2's state with both `mA` and `mB` buffered. -/
def st6 : ProcState :=
  { ProcState.init 2 3 with message_buffer := [mA, mB] }

/-- Process 0's state with the undeliverable `mBad` buffered. -/
def stW6 : ProcState :=
  { ProcState.init 0 3 with message_buffer := [mBad] }

/-- A message whose dependency map does constrain receiver 0. -/
def mW1 : Message :=
  { sender_id := 1
    receiver_id := 0
    content := "w"
    timestamp := [0, 1, 0]
    msg_queue := [some [1, 0, 0], none, none]
    msg_number := 1 }

/-- A small well-formed queue for a 2-process system. -/
def qW : List (Option Vec) := [none, some [0, 0]]

/-- A well-formed `MsgQueue` call sequence for a 2-process system. -/
def opsW : List QOp := [QOp.send 0 [1, 2], QOp.recv 0 [none, some [5, 0]]]

/-! ## List toolkit -/

theorem getD_of_length_le {α : Type} (d : α) :
    ∀ (l : List α) (k : Nat), l.length ≤ k → l.getD k d = d := by
  intro l
  induction l with
  | nil => intro k _; rfl
  | cons a t ih =>
    intro k hk
    cases k with
    | zero => simp at hk
    | succ k => simpa using ih k (by simpa using hk)

theorem getD_set_self {α : Type} (d x : α) (l : List α) :
    ∀ (i : Nat), i < l.length → (l.set i x).getD i d = x := by
  induction l with
  | nil => intro i hi; simp at hi
  | cons a t ih =>
    intro i hi
    cases i with
    | zero => rfl
    | succ i => simpa using ih i (by simpa using hi)

theorem getD_set_ne {α : Type} (d x : α) (l : List α) :
    ∀ (i j : Nat), i ≠ j → (l.set i x).getD j d = l.getD j d := by
  induction l with
  | nil => intro i j _; cases i <;> rfl
  | cons a t ih =>
    intro i j hij
    cases i with
    | zero =>
      cases j with
      | zero => exact absurd rfl hij
      | succ j => rfl
    | succ i =>
      cases j with
      | zero => rfl
      | succ j => simpa using ih i j (by omega)

theorem length_mapWithIdxFrom {α : Type} (f : Nat → α → α) :
    ∀ (s : Nat) (l : List α), (mapWithIdxFrom f s l).length = l.length := by
  intro s l
  induction l generalizing s with
  | nil => rfl
  | cons a t ih => simpa [mapWithIdxFrom] using ih (s + 1)

theorem getD_mapWithIdxFrom {α : Type} (f : Nat → α → α) (d : α) :
    ∀ (l : List α) (s k : Nat), k < l.length →
      (mapWithIdxFrom f s l).getD k d = f (s + k) (l.getD k d) := by
  intro l
  induction l with
  | nil => intro s k hk; simp at hk
  | cons a t ih =>
    intro s k hk
    cases k with
    | zero => rfl
    | succ k =>
      have := ih (s + 1) k (by simpa using hk)
      simpa [mapWithIdxFrom, Nat.add_assoc, Nat.add_comm 1 k] using this

theorem getD_mapWithIdxFrom_of_le {α : Type} (f : Nat → α → α) (d : α)
    (l : List α) (s k : Nat) (hk : l.length ≤ k) :
    (mapWithIdxFrom f s l).getD k d = d :=
  getD_of_length_le d _ k (by rw [length_mapWithIdxFrom]; exact hk)

theorem mapWithIdxFrom_idem {α : Type} (f : Nat → α → α)
    (hf : ∀ i a, f i (f i a) = f i a) :
    ∀ (s : Nat) (l : List α),
      mapWithIdxFrom f s (mapWithIdxFrom f s l) = mapWithIdxFrom f s l := by
  intro s l
  induction l generalizing s with
  | nil => rfl
  | cons a t ih => simp [mapWithIdxFrom, hf, ih (s + 1)]

theorem zipWith_max_self : ∀ (v : Vec), List.zipWith max v v = v := by
  intro v
  induction v with
  | nil => rfl
  | cons a t ih => simp [List.zipWith, ih]

theorem zipWith_max_right_absorb :
    ∀ (a b : Vec), List.zipWith max (List.zipWith max a b) b = List.zipWith max a b := by
  intro a
  induction a with
  | nil => intro b; rfl
  | cons x t ih =>
    intro b
    cases b with
    | nil => rfl
    | cons y u => simp [List.zipWith, ih u, Nat.max_assoc, Nat.max_self]

theorem getD_zipWith_max_left_le :
    ∀ (a b : Vec) (i : Nat), a.length = b.length →
      a.getD i 0 ≤ (List.zipWith max a b).getD i 0 := by
  intro a
  induction a with
  | nil => intro b i _; simp
  | cons x t ih =>
    intro b i hlen
    cases b with
    | nil => simp at hlen
    | cons y u =>
      cases i with
      | zero => simp [List.zipWith]
      | succ i =>
        simpa [List.zipWith] using ih u i (by simpa using hlen)

theorem length_zipWith_max (a b : Vec) (h : a.length = b.length) :
    (List.zipWith max a b).length = a.length := by
  simp [List.length_zipWith, h]

/-! ## Facts about `vector_merge` -/

theorem vector_merge_none_right : ∀ e, vector_merge e none = e := by
  intro e; cases e <;> rfl

theorem vector_merge_idem_right :
    ∀ e o, vector_merge (vector_merge e o) o = vector_merge e o := by
  intro e o
  cases e with
  | none =>
    cases o with
    | none => rfl
    | some b => simp [vector_merge, zipWith_max_self]
  | some a =>
    cases o with
    | none => rfl
    | some b => simp [vector_merge, zipWith_max_right_absorb]

/-! ## The delivery predicate -/

theorem compare_bigger_equal_eq_true_iff :
    ∀ (v w : Vec), compare_bigger_equal v w = true ↔
      ∀ i < min v.length w.length, w.getD i 0 ≤ v.getD i 0 := by
  intro v
  induction v with
  | nil => intro w; simp [compare_bigger_equal]
  | cons a t ih =>
    intro w
    cases w with
    | nil => simp [compare_bigger_equal]
    | cons b u =>
      have hfold : compare_bigger_equal t u
          = (List.zip t u).all (fun ab => decide (ab.2 ≤ ab.1)) := rfl
      simp only [compare_bigger_equal, List.zip_cons_cons, List.all_cons,
        Bool.and_eq_true, decide_eq_true_eq, List.length_cons,
        Nat.succ_min_succ]
      rw [← hfold, ih u]
      constructor
      · rintro ⟨h0, hrest⟩ i hi
        cases i with
        | zero => simpa using h0
        | succ i => simpa using hrest i (by omega)
      · intro h
        refine ⟨by simpa using h 0 (by omega), ?_⟩
        intro i hi
        simpa using h (i + 1) (by omega)

/-- Claim C1: for every process and incoming message, `can_deliver` is true
iff the message's dependency map has no entry keyed by the receiver (the
empty sentinel), or that entry is componentwise `≤` the receiver's current
vector clock.  (The length side condition says the entry, when present, has
the clock's length, which every wire message of the system satisfies.) -/
theorem can_deliver_spec (st : ProcState) (msg : Message)
    (hlen : entry_wf st.vector_clock.vector.length
      (msg.msg_queue.getD st.process_id none) = true) :
    can_deliver st msg = true ↔
      (msg.msg_queue.getD st.process_id none = none ∨
       ∃ d, msg.msg_queue.getD st.process_id none = some d ∧
         ∀ i < d.length, d.getD i 0 ≤ st.vector_clock.vector.getD i 0) := by
  cases hm : msg.msg_queue.getD st.process_id none with
  | none =>
    unfold can_deliver
    rw [hm]
    simp
  | some d =>
    rw [hm] at hlen
    have hd : d.length = st.vector_clock.vector.length := by
      simpa [entry_wf] using hlen
    have hmin : min st.vector_clock.vector.length d.length = d.length := by
      omega
    simp only [can_deliver, hm, compare_bigger_equal_eq_true_iff, hmin]
    constructor
    · intro h
      exact Or.inr ⟨d, rfl, h⟩
    · rintro (h | ⟨d', hd', hP⟩)
      · exact absurd h (by simp)
      · obtain rfl : d' = d := by injection hd'.symm
        exact hP

theorem can_deliver_spec_witness :
    entry_wf (ProcState.init 0 3).vector_clock.vector.length
      (mW1.msg_queue.getD (ProcState.init 0 3).process_id none) = true ∧
    (can_deliver (ProcState.init 0 3) mW1 = true ↔
      (mW1.msg_queue.getD (ProcState.init 0 3).process_id none = none ∨
       ∃ d, mW1.msg_queue.getD (ProcState.init 0 3).process_id none = some d ∧
         ∀ i < d.length,
           d.getD i 0 ≤ (ProcState.init 0 3).vector_clock.vector.getD i 0)) :=
  ⟨by decide, can_deliver_spec (ProcState.init 0 3) mW1 (by decide)⟩

/-! ## The send path -/

/-- Claim C2, counterexample: at process 0 of a 3-process system, sending to
target 1 from the initial state leaves the dependency entry of peer 2
(`k ≠ p`, `k ≠ target`) untouched instead of merging `VC_after` into it, so
the claimed post-send update fails at `k = 2`. -/
theorem send_message_no_broadcast_cex :
    ∃ k, k ≠ (ProcState.init 0 3).process_id ∧ k ≠ 1 ∧
      (send_message (ProcState.init 0 3) 1 "a").1.vector_clock.msg_queue.getD k none ≠
        vector_merge ((ProcState.init 0 3).vector_clock.msg_queue.getD k none)
          (some (send_message (ProcState.init 0 3) 1 "a").2.timestamp) :=
  ⟨2, by decide, by decide, by decide⟩

/-- Claim C2 (amended): `send_message(target)` merges the post-increment
clock `VC_after` into `D[target]` only; every other dependency entry is
unchanged; and the outgoing message carries the pre-update snapshot of the
dependency map. -/
theorem send_message_updates_target_only (st : ProcState) (t : Nat) (c : String)
    (ht : t < st.vector_clock.msg_queue.length) :
    (send_message st t c).2.msg_queue = st.vector_clock.msg_queue ∧
    (send_message st t c).1.vector_clock.msg_queue.getD t none =
      vector_merge (st.vector_clock.msg_queue.getD t none)
        (some (send_message st t c).2.timestamp) ∧
    ∀ k, k ≠ t →
      (send_message st t c).1.vector_clock.msg_queue.getD k none =
        st.vector_clock.msg_queue.getD k none := by
  refine ⟨rfl, ?_, ?_⟩
  · exact getD_set_self none _ _ t ht
  · intro k hk
    exact getD_set_ne none _ _ t k (fun h => hk h.symm)

theorem increment_own (c : VectorClock) (h : c.process_id < c.vector.length) :
    c.increment.vector.getD c.process_id 0 = c.vector.getD c.process_id 0 + 1 :=
  getD_set_self 0 _ _ _ h

theorem increment_length (c : VectorClock) :
    c.increment.vector.length = c.vector.length := by
  simp [VectorClock.increment]

theorem update_length (c : VectorClock) (m : Message) :
    (c.update m).vector.length = c.vector.length := by
  simp [VectorClock.update, length_mapWithIdxFrom]

theorem update_own (c : VectorClock) (m : Message)
    (h : c.process_id < c.vector.length) :
    (c.update m).vector.getD c.process_id 0 = c.vector.getD c.process_id 0 + 1 := by
  simp only [VectorClock.update]
  rw [getD_set_self 0 _ _ _ (by rw [length_mapWithIdxFrom]; exact h)]
  rw [getD_mapWithIdxFrom _ 0 c.vector 0 c.process_id h]
  simp

theorem deliver_scan_own : ∀ (l : List Message) (st : ProcState),
    st.vector_clock.process_id < st.vector_clock.vector.length →
    (deliver_scan l st).1.vector_clock.process_id = st.vector_clock.process_id ∧
    (deliver_scan l st).1.vector_clock.vector.length = st.vector_clock.vector.length ∧
    (deliver_scan l st).1.vector_clock.vector.getD st.vector_clock.process_id 0
        + st.delivered_messages.length
      = st.vector_clock.vector.getD st.vector_clock.process_id 0
        + (deliver_scan l st).1.delivered_messages.length := by
  intro l
  induction l with
  | nil => intro st h; exact ⟨rfl, rfl, rfl⟩
  | cons m rest ih =>
    intro st h
    cases hc : can_deliver st m with
    | true =>
      have hpid : (deliver_message st m).vector_clock.process_id
          = st.vector_clock.process_id := rfl
      have hlen : (deliver_message st m).vector_clock.vector.length
          = st.vector_clock.vector.length := update_length _ _
      have hown : (deliver_message st m).vector_clock.vector.getD
            st.vector_clock.process_id 0
          = st.vector_clock.vector.getD st.vector_clock.process_id 0 + 1 :=
        update_own _ _ h
      have hdel : (deliver_message st m).delivered_messages.length
          = st.delivered_messages.length + 1 := by
        simp [deliver_message]
      obtain ⟨ih1, ih2, ih3⟩ := ih (deliver_message st m) (by rw [hpid, hlen]; exact h)
      rw [hpid] at ih1 ih3
      rw [hown, hdel] at ih3
      simp only [deliver_scan, hc, if_true]
      exact ⟨ih1, by rw [ih2, hlen], by omega⟩
    | false =>
      obtain ⟨ih1, ih2, ih3⟩ := ih st h
      simp only [deliver_scan, hc, Bool.false_eq_true, if_false]
      exact ⟨ih1, ih2, ih3⟩

theorem try_deliver_buffered_own (st : ProcState)
    (h : st.vector_clock.process_id < st.vector_clock.vector.length) :
    (try_deliver_buffered st).vector_clock.process_id = st.vector_clock.process_id ∧
    (try_deliver_buffered st).vector_clock.vector.length = st.vector_clock.vector.length ∧
    (try_deliver_buffered st).vector_clock.vector.getD st.vector_clock.process_id 0
        + st.delivered_messages.length
      = st.vector_clock.vector.getD st.vector_clock.process_id 0
        + (try_deliver_buffered st).delivered_messages.length := by
  unfold try_deliver_buffered
  by_cases hb : st.message_buffer = []
  · rw [if_pos hb]
    exact ⟨rfl, rfl, rfl⟩
  · rw [if_neg hb]
    exact deliver_scan_own (sortByKey st.message_buffer) st h

theorem receive_message_own (st : ProcState) (m : Message)
    (h : st.vector_clock.process_id < st.vector_clock.vector.length) :
    (receive_message st m).vector_clock.process_id = st.vector_clock.process_id ∧
    (receive_message st m).vector_clock.vector.length = st.vector_clock.vector.length ∧
    (receive_message st m).vector_clock.vector.getD st.vector_clock.process_id 0
        + st.delivered_messages.length
      = st.vector_clock.vector.getD st.vector_clock.process_id 0
        + (receive_message st m).delivered_messages.length := by
  unfold receive_message
  by_cases hc : can_deliver (recv_update_queue st m) m = true
  · simp only [hc, if_true]
    have h1 : (deliver_message (recv_update_queue st m) m).vector_clock.process_id
        = st.vector_clock.process_id := rfl
    have h2 : (deliver_message (recv_update_queue st m) m).vector_clock.vector.length
        = st.vector_clock.vector.length := update_length _ _
    have h3 : (deliver_message (recv_update_queue st m) m).vector_clock.vector.getD
          st.vector_clock.process_id 0
        = st.vector_clock.vector.getD st.vector_clock.process_id 0 + 1 :=
      update_own _ _ h
    have h4 : (deliver_message (recv_update_queue st m) m).delivered_messages.length
        = st.delivered_messages.length + 1 := by
      simp [deliver_message, recv_update_queue]
    obtain ⟨t1, t2, t3⟩ :=
      try_deliver_buffered_own (deliver_message (recv_update_queue st m) m)
        (by rw [h1, h2]; exact h)
    rw [h1] at t1 t3
    rw [h3, h4] at t3
    exact ⟨t1, by rw [t2, h2], by omega⟩
  · simp only [hc, if_false]
    exact ⟨rfl, rfl, rfl⟩

theorem send_message_own (st : ProcState) (t : Nat) (c : String)
    (h : st.vector_clock.process_id < st.vector_clock.vector.length) :
    (send_message st t c).1.vector_clock.process_id = st.vector_clock.process_id ∧
    (send_message st t c).1.vector_clock.vector.length = st.vector_clock.vector.length ∧
    (send_message st t c).1.vector_clock.vector.getD st.vector_clock.process_id 0
      = st.vector_clock.vector.getD st.vector_clock.process_id 0 + 1 ∧
    (send_message st t c).1.delivered_messages = st.delivered_messages :=
  ⟨rfl, increment_length st.vector_clock, increment_own st.vector_clock h, rfl⟩

theorem applyOp_own (op : Op) (st : ProcState)
    (h : st.vector_clock.process_id < st.vector_clock.vector.length) :
    (applyOp st op).vector_clock.process_id = st.vector_clock.process_id ∧
    (applyOp st op).vector_clock.vector.length = st.vector_clock.vector.length ∧
    (applyOp st op).vector_clock.vector.getD st.vector_clock.process_id 0
        + st.delivered_messages.length
      = st.vector_clock.vector.getD st.vector_clock.process_id 0
        + countSends [op] + (applyOp st op).delivered_messages.length := by
  cases op with
  | send t c =>
    obtain ⟨h1, h2, h3, h4⟩ := send_message_own st t c h
    exact ⟨h1, h2, by simp only [applyOp, countSends, h3, h4]⟩
  | recv m =>
    obtain ⟨h1, h2, h3⟩ := receive_message_own st m h
    exact ⟨h1, h2, by simpa [applyOp, countSends] using h3⟩

/-- Claim C3, counterexample: a trace with no send operation at all in which
the single delivery raises `VC[p]` from 0 to 1 — `VectorClock.update`
increments the process's own component on delivery, so `VC[p]` does not
equal the number of sends performed. -/
theorem deliver_increments_own_cex :
    countSends [Op.recv m31] = 0 ∧
    (runOps (ProcState.init 0 3) [Op.recv m31]).vector_clock.vector.getD 0 0 = 1 ∧
    (ProcState.init 0 3).vector_clock.vector.getD 0 0 = 0 := by
  decide

/-- Claim C3 (amended): `VC[p]` is incremented exactly once per local send
and, in addition, exactly once per delivered message (`VectorClock.update`
increments the own component); over any operation trace the increase of
`VC[p]` equals the number of sends plus the number of deliveries. -/
theorem vc_own_counts_sends_and_deliveries (st : ProcState) (ops : List Op)
    (h : st.vector_clock.process_id < st.vector_clock.vector.length) :
    (runOps st ops).vector_clock.vector.getD st.vector_clock.process_id 0
        + st.delivered_messages.length
      = st.vector_clock.vector.getD st.vector_clock.process_id 0
        + countSends ops + (runOps st ops).delivered_messages.length := by
  induction ops generalizing st with
  | nil => simp [runOps, countSends]
  | cons op rest ih =>
    obtain ⟨h1, h2, h3⟩ := applyOp_own op st h
    have hinv : (applyOp st op).vector_clock.process_id
        < (applyOp st op).vector_clock.vector.length := by
      rw [h1, h2]; exact h
    have hrun := ih (applyOp st op) hinv
    rw [h1] at hrun
    have hcount : countSends (op :: rest) = countSends [op] + countSends rest := by
      cases op with
      | send t c => simp [countSends, Nat.add_comm]
      | recv m => simp [countSends]
    simp only [runOps]
    omega

theorem vc_own_counts_sends_and_deliveries_witness :
    (ProcState.init 0 3).vector_clock.process_id
        < (ProcState.init 0 3).vector_clock.vector.length ∧
    (runOps (ProcState.init 0 3) [Op.send 1 "a", Op.recv m31]).vector_clock.vector.getD
        (ProcState.init 0 3).vector_clock.process_id 0
      + (ProcState.init 0 3).delivered_messages.length
      = (ProcState.init 0 3).vector_clock.vector.getD
          (ProcState.init 0 3).vector_clock.process_id 0
        + countSends [Op.send 1 "a", Op.recv m31]
        + (runOps (ProcState.init 0 3) [Op.send 1 "a", Op.recv m31]).delivered_messages.length :=
  ⟨by decide,
   vc_own_counts_sends_and_deliveries (ProcState.init 0 3)
     [Op.send 1 "a", Op.recv m31] (by decide)⟩

theorem send_message_updates_target_only_witness :
    1 < (ProcState.init 0 3).vector_clock.msg_queue.length ∧
    (send_message (ProcState.init 0 3) 1 "a").2.msg_queue =
      (ProcState.init 0 3).vector_clock.msg_queue ∧
    (send_message (ProcState.init 0 3) 1 "a").1.vector_clock.msg_queue.getD 1 none =
      vector_merge ((ProcState.init 0 3).vector_clock.msg_queue.getD 1 none)
        (some (send_message (ProcState.init 0 3) 1 "a").2.timestamp) ∧
    (send_message (ProcState.init 0 3) 1 "a").1.vector_clock.msg_queue.getD 2 none =
      (ProcState.init 0 3).vector_clock.msg_queue.getD 2 none :=
  ⟨by decide,
   (send_message_updates_target_only (ProcState.init 0 3) 1 "a" (by decide)).1,
   (send_message_updates_target_only (ProcState.init 0 3) 1 "a" (by decide)).2.1,
   (send_message_updates_target_only (ProcState.init 0 3) 1 "a" (by decide)).2.2 2
     (by decide)⟩

/-! ## The receive path: pre-check update and the dependency invariant -/

/-- Claim C4, failing input: at process 0 (initial state, 3 processes) the
message `mBad` fails the delivery predicate and is buffered, yet
`receive_message` has already merged the message's dependency map into `D`
before evaluating the predicate: `D[2]` changes from empty to `[0,5,0]`
while the vector clock stays unchanged. -/
theorem receive_buffered_mutates_dep_map :
    can_deliver (recv_update_queue (ProcState.init 0 3) mBad) mBad = false ∧
    (receive_message (ProcState.init 0 3) mBad).message_buffer = [mBad] ∧
    (receive_message (ProcState.init 0 3) mBad).vector_clock.vector =
      (ProcState.init 0 3).vector_clock.vector ∧
    (ProcState.init 0 3).vector_clock.msg_queue.getD 2 none = none ∧
    (receive_message (ProcState.init 0 3) mBad).vector_clock.msg_queue.getD 2 none
      = some [0, 5, 0] := by
  decide

/-- Claim C8, failing input: the spec's invariant "for every `k ≠ p`,
`D[k]` is empty or `D[k] ≤ VC` componentwise" holds in the initial state
but is broken by `receive_message (ProcState.init 0 3) mBad`, which merges
`[0,5,0]` into `D[2]` while leaving `VC = [0,0,0]`. -/
theorem receive_breaks_dep_invariant :
    dep_invariant (ProcState.init 0 3) = true ∧
    dep_invariant (receive_message (ProcState.init 0 3) mBad) = false := by
  decide

/-! ## Delivery with no dependency entry for the sender -/

/-- Claim C5, counterexample: process 0 delivers `m31` from sender 1 whose
dependency map has no entry for the sender, while `D[1] = [1,0,0]` is
non-empty; after delivery `D[1]` is still `[1,0,0]`, not empty — the merge
with the empty sentinel is the identity and never clears the entry. -/
theorem deliver_no_dep_entry_not_cleared_cex :
    m31.msg_queue.getD m31.sender_id none = none ∧
    can_deliver st5 m31 = true ∧
    (deliver_message st5 m31).vector_clock.msg_queue.getD m31.sender_id none
      = some [1, 0, 0] ∧
    (deliver_message st5 m31).vector_clock.msg_queue.getD m31.sender_id none
      ≠ none := by
  decide

/-- Claim C5 (amended): when the delivered message's dependency map has no
entry for the sender, `on_deliver` leaves `D[msg.sender_id]` unchanged
(merging with the empty sentinel is the identity); in particular it is
empty afterwards only if it was empty before. -/
theorem deliver_no_dep_entry_unchanged (st : ProcState) (m : Message)
    (h : m.msg_queue.getD m.sender_id none = none) :
    (deliver_message st m).vector_clock.msg_queue.getD m.sender_id none
      = st.vector_clock.msg_queue.getD m.sender_id none := by
  show (update_queue_recv st.vector_clock.process_id m.msg_queue
      st.vector_clock.msg_queue).getD m.sender_id none
    = st.vector_clock.msg_queue.getD m.sender_id none
  unfold update_queue_recv
  by_cases hs : m.sender_id < st.vector_clock.msg_queue.length
  · rw [getD_mapWithIdxFrom _ none _ 0 _ hs]
    simp only [Nat.zero_add]
    by_cases hp : m.sender_id = st.vector_clock.process_id
    · rw [if_pos hp]
    · rw [if_neg hp, h, vector_merge_none_right]
  · rw [getD_mapWithIdxFrom_of_le _ none _ 0 _ (Nat.le_of_not_lt hs),
        getD_of_length_le none _ _ (Nat.le_of_not_lt hs)]

theorem deliver_no_dep_entry_unchanged_witness :
    m31.msg_queue.getD m31.sender_id none = none ∧
    (deliver_message st5 m31).vector_clock.msg_queue.getD m31.sender_id none
      = st5.vector_clock.msg_queue.getD m31.sender_id none :=
  ⟨by decide, deliver_no_dep_entry_unchanged st5 m31 (by decide)⟩

/-! ## The buffer re-examination pass -/

theorem deliver_scan_kept_sublist : ∀ (l : List Message) (st : ProcState),
    ((deliver_scan l st).2).Sublist l := by
  intro l
  induction l with
  | nil => intro st; simp [deliver_scan]
  | cons m rest ih =>
    intro st
    cases hc : can_deliver st m with
    | true =>
      simp only [deliver_scan, hc, if_true]
      exact (ih (deliver_message st m)).cons m
    | false =>
      simp only [deliver_scan, hc, Bool.false_eq_true, if_false]
      exact (ih st).cons₂ m

theorem deliver_scan_delivered_le : ∀ (l : List Message) (st : ProcState),
    st.delivered_messages.length ≤ (deliver_scan l st).1.delivered_messages.length := by
  intro l
  induction l with
  | nil => intro st; exact Nat.le_refl _
  | cons m rest ih =>
    intro st
    cases hc : can_deliver st m with
    | true =>
      simp only [deliver_scan, hc, if_true]
      have h1 : (deliver_message st m).delivered_messages.length
          = st.delivered_messages.length + 1 := by
        simp [deliver_message]
      have := ih (deliver_message st m)
      omega
    | false =>
      simp only [deliver_scan, hc, Bool.false_eq_true, if_false]
      exact ih st

theorem deliver_scan_no_delivery : ∀ (l : List Message) (st : ProcState),
    (deliver_scan l st).1.delivered_messages = st.delivered_messages →
    (deliver_scan l st).1 = st ∧ (deliver_scan l st).2 = l ∧
    ∀ m ∈ l, can_deliver st m = false := by
  intro l
  induction l with
  | nil => intro st _; exact ⟨rfl, rfl, by simp⟩
  | cons m rest ih =>
    intro st h
    cases hc : can_deliver st m with
    | true =>
      exfalso
      simp only [deliver_scan, hc, if_true] at h
      have hle := deliver_scan_delivered_le rest (deliver_message st m)
      have h1 : (deliver_message st m).delivered_messages.length
          = st.delivered_messages.length + 1 := by
        simp [deliver_message]
      have hL := congrArg List.length h
      omega
    | false =>
      simp only [deliver_scan, hc, Bool.false_eq_true, if_false] at h ⊢
      obtain ⟨e1, e2, e3⟩ := ih st h
      refine ⟨e1, by rw [e2], ?_⟩
      intro m' hm'
      rcases List.mem_cons.mp hm' with rfl | hm'
      · exact hc
      · exact e3 m' hm'

/-- Claim C6, counterexample: at process 2 with buffer `[mA, mB]` (sorted
order puts `mA` first), the single pass skips `mA`, delivers `mB`, and the
delivery of `mB` makes `mA` deliverable — but the pass is not repeated, so
`try_deliver_buffered` returns with `mA` still buffered even though
`can_deliver` now holds for it. -/
theorem try_deliver_not_fixpoint_cex :
    (try_deliver_buffered st6).message_buffer = [mA] ∧
    can_deliver (try_deliver_buffered st6) mA = true := by
  decide

/-- Claim C6 (amended): `try_deliver_buffered` makes a single pass over the
buffer sorted by `(sender_id, msg.vc[sender_id])` ascending, delivering each
entry deliverable at the moment it is scanned (the remaining buffer is a
subsequence of the sorted buffer); only when the pass delivers nothing is
every remaining buffered message guaranteed undeliverable — after a pass
that delivered something, a remaining message may satisfy `can_deliver`. -/
theorem try_deliver_buffered_single_pass (st : ProcState) :
    ((try_deliver_buffered st).message_buffer).Sublist (sortByKey st.message_buffer) ∧
    ((try_deliver_buffered st).delivered_messages = st.delivered_messages →
      ∀ m ∈ (try_deliver_buffered st).message_buffer,
        can_deliver (try_deliver_buffered st) m = false) := by
  unfold try_deliver_buffered
  by_cases hb : st.message_buffer = []
  · rw [if_pos hb]
    constructor
    · rw [hb]
      exact List.nil_sublist _
    · intro _ m hm
      rw [hb] at hm
      simp at hm
  · rw [if_neg hb]
    constructor
    · exact deliver_scan_kept_sublist (sortByKey st.message_buffer) st
    · intro h m hm
      obtain ⟨e1, e2, e3⟩ :=
        deliver_scan_no_delivery (sortByKey st.message_buffer) st h
      have hm' : m ∈ sortByKey st.message_buffer := by
        rw [← e2]
        exact hm
      rw [e1]
      show can_deliver st m = false
      exact e3 m hm'

theorem try_deliver_buffered_single_pass_witness :
    ((try_deliver_buffered stW6).message_buffer).Sublist
      (sortByKey stW6.message_buffer) ∧
    can_deliver (try_deliver_buffered stW6) mBad = false :=
  ⟨(try_deliver_buffered_single_pass stW6).1,
   (try_deliver_buffered_single_pass stW6).2 (by decide) mBad (by decide)⟩

/-! ## Idempotence of the delivery update -/

theorem update_queue_recv_idem (p : Nat) (o q : List (Option Vec)) :
    update_queue_recv p o (update_queue_recv p o q) = update_queue_recv p o q := by
  unfold update_queue_recv
  apply mapWithIdxFrom_idem
  intro i e
  by_cases hp : i = p
  · rw [if_pos hp, if_pos hp]
  · rw [if_neg hp, if_neg hp, vector_merge_idem_right]

theorem update_getD_ne (c : VectorClock) (m : Message) (i : Nat)
    (hi : i ≠ c.process_id) (hlt : i < c.vector.length) :
    (c.update m).vector.getD i 0 = max (c.vector.getD i 0) (m.timestamp.getD i 0) := by
  simp only [VectorClock.update]
  rw [getD_set_ne 0 _ _ c.process_id i (fun hh => hi hh.symm)]
  rw [getD_mapWithIdxFrom _ 0 _ 0 _ hlt]
  simp [hi]

theorem update_getD_out (c : VectorClock) (m : Message) (i : Nat)
    (hge : c.vector.length ≤ i) :
    (c.update m).vector.getD i 0 = 0 := by
  have := update_length c m
  exact getD_of_length_le 0 _ i (by omega)

/-- Claim C7, counterexample: applying `VectorClock.update m31` twice from
the initial clock of process 0 gives `VC = [2,1,0]` while applying it once
gives `[1,1,0]` — the own component is incremented again, so the resulting
`CausalityState` differs. -/
theorem update_not_idempotent_cex :
    (((ProcState.init 0 3).vector_clock.update m31).update m31).vector = [2, 1, 0] ∧
    ((ProcState.init 0 3).vector_clock.update m31).vector = [1, 1, 0] ∧
    ((ProcState.init 0 3).vector_clock.update m31).update m31
      ≠ (ProcState.init 0 3).vector_clock.update m31 := by
  decide

/-- Claim C7 (amended): applying `on_deliver`'s clock update twice with the
same message yields the same dependency map and the same clock components
`i ≠ p` as applying it once, but the own component `VC[p]` is incremented
once more — only the merge parts are idempotent. -/
theorem update_twice (c : VectorClock) (m : Message)
    (h : c.process_id < c.vector.length) :
    ((c.update m).update m).msg_queue = (c.update m).msg_queue ∧
    (∀ i, i ≠ c.process_id →
      ((c.update m).update m).vector.getD i 0 = (c.update m).vector.getD i 0) ∧
    ((c.update m).update m).vector.getD c.process_id 0
      = (c.update m).vector.getD c.process_id 0 + 1 := by
  refine ⟨update_queue_recv_idem _ _ _, ?_, ?_⟩
  · intro i hi
    by_cases hlt : i < c.vector.length
    · have h1 : (c.update m).vector.getD i 0
          = max (c.vector.getD i 0) (m.timestamp.getD i 0) :=
        update_getD_ne c m i hi hlt
      have h2 : ((c.update m).update m).vector.getD i 0
          = max ((c.update m).vector.getD i 0) (m.timestamp.getD i 0) :=
        update_getD_ne (c.update m) m i hi (by rw [update_length]; exact hlt)
      rw [h2, h1, max_assoc, max_self]
    · have h1 := update_getD_out c m i (Nat.le_of_not_lt hlt)
      have h2 := update_getD_out (c.update m) m i
        (by rw [update_length]; exact Nat.le_of_not_lt hlt)
      rw [h2, h1]
  · exact update_own (c.update m) m (by rw [update_length]; exact h)

theorem update_twice_witness :
    (ProcState.init 0 3).vector_clock.process_id
        < (ProcState.init 0 3).vector_clock.vector.length ∧
    (((ProcState.init 0 3).vector_clock.update m31).update m31).msg_queue
      = ((ProcState.init 0 3).vector_clock.update m31).msg_queue ∧
    (((ProcState.init 0 3).vector_clock.update m31).update m31).vector.getD 1 0
      = ((ProcState.init 0 3).vector_clock.update m31).vector.getD 1 0 ∧
    (((ProcState.init 0 3).vector_clock.update m31).update m31).vector.getD
        (ProcState.init 0 3).vector_clock.process_id 0
      = ((ProcState.init 0 3).vector_clock.update m31).vector.getD
          (ProcState.init 0 3).vector_clock.process_id 0 + 1 :=
  ⟨by decide,
   (update_twice (ProcState.init 0 3).vector_clock m31 (by decide)).1,
   (update_twice (ProcState.init 0 3).vector_clock m31 (by decide)).2.1 1 (by decide),
   (update_twice (ProcState.init 0 3).vector_clock m31 (by decide)).2.2⟩

/-! ## The connection handler on a malformed frame -/

/-- Claim C9, failing input: a frame whose bytes do not decode leaves
`handle_connection` through the error path — the `try/except` in the source
is commented out, so the decode failure escapes the handler instead of
being logged and discarded with the state intact. -/
theorem malformed_frame_error_escapes :
    handle_connection (ProcState.init 0 3) (Frame.malformed "not json")
      = Except.error ("JSONDecodeError: " ++ "not json") := rfl

/-! ## Monotonicity of the dependency map under `MsgQueue` calls -/

theorem queue_wf_getD (n : Nat) :
    ∀ (q : List (Option Vec)), queue_wf n q = true →
      ∀ k, entry_wf n (q.getD k none) = true := by
  intro q
  induction q with
  | nil => intro _ k; rfl
  | cons e t ih =>
    intro hq k
    rw [queue_wf, List.all_cons, Bool.and_eq_true] at hq
    cases k with
    | zero => exact hq.1
    | succ k => exact ih hq.2 k

theorem entry_wf_length {n : Nat} {v : Vec} (h : entry_wf n (some v) = true) :
    v.length = n := by
  simpa [entry_wf] using h

theorem merge_wf {n : Nat} {e x : Option Vec}
    (he : entry_wf n e = true) (hx : entry_wf n x = true) :
    entry_wf n (vector_merge e x) = true := by
  cases e with
  | none => exact hx
  | some a =>
    cases x with
    | none => exact he
    | some b =>
      have ha := entry_wf_length he
      have hb := entry_wf_length hx
      simp [vector_merge, entry_wf, List.length_zipWith, ha, hb]

theorem merge_mono {n : Nat} {e x : Option Vec}
    (he : entry_wf n e = true) (hx : entry_wf n x = true)
    (v : Vec) (hv : e = some v) :
    ∃ v', vector_merge e x = some v' ∧ ∀ i, v.getD i 0 ≤ v'.getD i 0 := by
  subst hv
  cases x with
  | none => exact ⟨v, rfl, fun i => Nat.le_refl _⟩
  | some b =>
    refine ⟨List.zipWith max v b, rfl, fun i => ?_⟩
    exact getD_zipWith_max_left_le v b i
      (by rw [entry_wf_length he, entry_wf_length hx])

theorem set_all_wf {n : Nat} {x : Option Vec} (hx : entry_wf n x = true) :
    ∀ (q : List (Option Vec)) (t : Nat), queue_wf n q = true →
      queue_wf n (q.set t x) = true := by
  intro q
  induction q with
  | nil => intro t hq; cases t <;> exact hq
  | cons e u ih =>
    intro t hq
    rw [queue_wf, List.all_cons, Bool.and_eq_true] at hq
    cases t with
    | zero =>
      rw [List.set, queue_wf, List.all_cons, Bool.and_eq_true]
      exact ⟨hx, hq.2⟩
    | succ t =>
      rw [List.set, queue_wf, List.all_cons, Bool.and_eq_true]
      exact ⟨hq.1, ih t hq.2⟩

theorem all_mapWithIdxFrom {α : Type} (pb : α → Bool) (f : Nat → α → α)
    (hf : ∀ i a, pb a = true → pb (f i a) = true) :
    ∀ (s : Nat) (l : List α), l.all pb = true →
      (mapWithIdxFrom f s l).all pb = true := by
  intro s l
  induction l generalizing s with
  | nil => intro h; exact h
  | cons a t ih =>
    intro h
    rw [List.all_cons, Bool.and_eq_true] at h
    rw [mapWithIdxFrom, List.all_cons, Bool.and_eq_true]
    exact ⟨hf s a h.1, ih (s + 1) h.2⟩

theorem applyQOp_wf {n : Nat} {q : List (Option Vec)} {op : QOp}
    (hq : queue_wf n q = true) (hop : qop_wf n op = true) :
    queue_wf n (applyQOp q op) = true := by
  cases op with
  | send t vc =>
    have hvc : entry_wf n (some vc) = true := by
      simpa [qop_wf, entry_wf] using hop
    exact set_all_wf (merge_wf (queue_wf_getD n q hq t) hvc) q t hq
  | recv pid other =>
    have hother : queue_wf n other = true := hop
    refine all_mapWithIdxFrom _ _ ?_ 0 q hq
    intro i e he
    by_cases hp : i = pid
    · rw [if_pos hp]; exact he
    · rw [if_neg hp]
      exact merge_wf he (queue_wf_getD n other hother i)

theorem getD_some_lt {q : List (Option Vec)} {k : Nat} {v : Vec}
    (hv : q.getD k none = some v) : k < q.length := by
  by_contra hk
  rw [getD_of_length_le none q k (Nat.le_of_not_lt hk)] at hv
  exact Option.noConfusion hv

theorem applyQOp_mono {n : Nat} {q : List (Option Vec)} {op : QOp}
    (hq : queue_wf n q = true) (hop : qop_wf n op = true)
    (k : Nat) (v : Vec) (hv : q.getD k none = some v) :
    ∃ v', (applyQOp q op).getD k none = some v' ∧
      ∀ i, v.getD i 0 ≤ v'.getD i 0 := by
  have hk : k < q.length := getD_some_lt hv
  cases op with
  | send t vc =>
    show ∃ v', (q.set t (vector_merge (q.getD t none) (some vc))).getD k none
        = some v' ∧ _
    by_cases ht : t = k
    · subst ht
      rw [getD_set_self none _ q t hk]
      exact merge_mono (queue_wf_getD n q hq t) (by simpa [qop_wf, entry_wf] using hop) v hv
    · rw [getD_set_ne none _ q t k ht, hv]
      exact ⟨v, rfl, fun i => Nat.le_refl _⟩
  | recv pid other =>
    show ∃ v', (mapWithIdxFrom _ 0 q).getD k none = some v' ∧ _
    rw [getD_mapWithIdxFrom _ none q 0 k hk]
    simp only [Nat.zero_add]
    by_cases hp : k = pid
    · rw [if_pos hp, hv]
      exact ⟨v, rfl, fun i => Nat.le_refl _⟩
    · rw [if_neg hp]
      exact merge_mono (queue_wf_getD n q hq k) (queue_wf_getD n other hop k) v hv

theorem runQOps_mono {n : Nat} :
    ∀ (ops : List QOp) (q : List (Option Vec)),
      queue_wf n q = true → ops.all (qop_wf n) = true →
      ∀ (k : Nat) (v : Vec), q.getD k none = some v →
        ∃ v', (runQOps q ops).getD k none = some v' ∧
          ∀ i, v.getD i 0 ≤ v'.getD i 0 := by
  intro ops
  induction ops with
  | nil =>
    intro q _ _ k v hv
    exact ⟨v, hv, fun i => Nat.le_refl _⟩
  | cons op rest ih =>
    intro q hq hops k v hv
    rw [List.all_cons, Bool.and_eq_true] at hops
    obtain ⟨v1, hv1, hle1⟩ := applyQOp_mono hq hops.1 k v hv
    obtain ⟨v', hv', hle2⟩ :=
      ih (applyQOp q op) (applyQOp_wf hq hops.1) hops.2 k v1 hv1
    exact ⟨v', hv', fun i => Nat.le_trans (hle1 i) (hle2 i)⟩

/-- Claim C10: over any sequence of well-formed `update_queue_send` and
`update_queue_recv` calls (all vectors of the system's length `n`), a
non-empty dependency entry `D[k]` stays non-empty, and each of its
components is non-decreasing — no call ever removes or decreases an
entry. -/
theorem dep_map_monotone (n : Nat) (q : List (Option Vec)) (ops : List QOp)
    (hq : queue_wf n q = true) (hops : ops.all (qop_wf n) = true) (k : Nat) :
    (q.getD k none ≠ none → (runQOps q ops).getD k none ≠ none) ∧
    ∀ v, q.getD k none = some v →
      ∃ v', (runQOps q ops).getD k none = some v' ∧
        ∀ i, v.getD i 0 ≤ v'.getD i 0 := by
  constructor
  · intro hne
    cases hv : q.getD k none with
    | none => exact absurd hv hne
    | some v =>
      obtain ⟨v', hv', _⟩ := runQOps_mono ops q hq hops k v hv
      rw [hv']
      exact Option.noConfusion
  · intro v hv
    exact runQOps_mono ops q hq hops k v hv

theorem dep_map_monotone_witness :
    queue_wf 2 qW = true ∧ opsW.all (qop_wf 2) = true ∧
    (qW.getD 1 none ≠ none → (runQOps qW opsW).getD 1 none ≠ none) ∧
    ∃ v', (runQOps qW opsW).getD 1 none = some v' ∧
      ∀ i, List.getD [0, 0] i 0 ≤ v'.getD i 0 :=
  ⟨by decide, by decide,
   (dep_map_monotone 2 qW opsW (by decide) (by decide) 1).1,
   (dep_map_monotone 2 qW opsW (by decide) (by decide) 1).2 [0, 0] (by decide)⟩

end SES
